import Mathlib

/-
Verification of the HTML-to-schema extraction pipeline in
src/bin/parse_tg_bot_api (parser.rs, tg_api.rs).

The embedding models the select-crate view of an HTML document as a tree
of nodes (elements with a tag name, attributes and children, or bare text
nodes) and translates each Rust function of parser.rs into a Lean
function of the same name.  Rust Result values become Except String;
the one Rust failure mode that is a panic rather than a Result (the
unguarded vector indexing in parse_table_tbody) is modelled by a
distinguished outcome so that panics and errors stay distinguishable.
Rust HashMap values that are only ever inserted into and looked up are
modelled as association lists with overwrite-on-insert; HashSet and
BTreeSet values whose observable content is a set are modelled as
Finset.  Character predicates (char::is_whitespace, char::is_uppercase)
are modelled on the ASCII range, which covers every string the claims
and the source page convention use.
-/

namespace TgBotApi

/-- A node of the parsed HTML document, as exposed by the select crate:
either a text node or an element with a tag name, an attribute list and
child nodes. -/
inductive HNode where
  | text (s : String)
  | element (name : String) (attrs : List (String × String)) (children : List HNode)

/-- Node.name() of the select crate: some tag name for elements, none for
text nodes. -/
def nodeName : HNode → Option String
  | .text _ => none
  | .element n _ _ => some n

/-- Children of a node; text nodes have none. -/
def nodeChildren : HNode → List HNode
  | .text _ => []
  | .element _ _ cs => cs

/-- Attribute lookup in an attribute list, first match wins. -/
def attrLookup : List (String × String) → String → Option String
  | [], _ => none
  | (k, v) :: rest, key => if k = key then some v else attrLookup rest key

/-- Node.attr(key) of the select crate. -/
def nodeAttr (n : HNode) (key : String) : Option String :=
  match n with
  | .text _ => none
  | .element _ attrs _ => attrLookup attrs key

mutual
/-- Node.text() of the select crate: the concatenated text of all
descendants in document order. -/
def nodeText : HNode → String
  | .text s => s
  | .element _ _ cs => nodesText cs
/-- Text of a list of sibling nodes, concatenated in order. -/
def nodesText : List HNode → String
  | [] => ""
  | c :: cs => nodeText c ++ nodesText cs
end

mutual
/-- All nodes of a tree in document (preorder) order, as iterated by
Document.find of the select crate. -/
def preorderNode : HNode → List HNode
  | .text s => [.text s]
  | .element n a cs => .element n a cs :: preorderForest cs
/-- Preorder traversal of a forest of sibling trees. -/
def preorderForest : List HNode → List HNode
  | [] => []
  | c :: cs => preorderNode c ++ preorderForest cs
end

/-- Whitespace predicate of Rust char::is_whitespace, restricted to the
ASCII range (the only characters the source page convention uses). -/
def isRustWs (c : Char) : Bool :=
  c = ' ' || c = '\t' || c = '\n' || c = '\r' || c = '\x0b' || c = '\x0c'

/-- str::trim of Rust on a character list: drop leading and trailing
whitespace. -/
def rustTrimL (l : List Char) : List Char :=
  ((l.dropWhile isRustWs).reverse.dropWhile isRustWs).reverse

/-- str::trim of Rust on a String. -/
def rustTrim (s : String) : String := ⟨rustTrimL s.data⟩

/-- str::starts_with of Rust: the first argument is the pattern. -/
def startsWithL : List Char → List Char → Bool
  | [], _ => true
  | _ :: _, [] => false
  | p :: ps, c :: cs => p = c && startsWithL ps cs

/-- s.starts_with(p) of Rust on Strings. -/
def rustStartsWith (s p : String) : Bool := startsWithL p.data s.data

/-- str::chars().next() of Rust: the first character of a string, if any. -/
def charsNext (s : String) : Option Char := s.data.head?

/-- Field of tg_api.rs: {name, type, optional, description}. -/
structure Field where
  name : String
  type : String
  optional : Bool
  description : String
deriving DecidableEq

/-- Type of tg_api.rs: {name, description, fields}; fields is a BTreeSet
in the source, modelled as a Finset.  Named TgType because Type is a
Lean keyword. -/
structure TgType where
  name : String
  description : String
  fields : Finset Field
deriving DecidableEq

/-- Parameter of tg_api.rs. -/
structure Parameter where
  name : String
  type : String
  required : Bool
  description : String
deriving DecidableEq

/-- Method of tg_api.rs. -/
structure Method where
  name : String
  description : String
  parameters : List Parameter
deriving DecidableEq

/-- LiTag of parser.rs: one list item, holding its trimmed text. -/
structure LiTag where
  value : String
deriving DecidableEq

/-- UlTag of parser.rs: the HashSet of list items, modelled as a Finset. -/
structure UlTag where
  list_items : Finset LiTag
deriving DecidableEq

/-- LineTag of parser.rs: one decoded table row.  The Rust HashMap from
column name to cell text is modelled as an association list with
overwrite-on-insert, which is observationally equal for the insert and
get operations the source performs on it. -/
structure LineTag where
  value : List (String × String)
deriving DecidableEq

/-- TableTag of parser.rs: the decoded rows of one table. -/
structure TableTag where
  lines : List LineTag
deriving DecidableEq

/-- Tag of parser.rs: the classified block variants.  The single-field
wrapper structs H4Tag and PTag of the source are collapsed into the
String payloads of the first two constructors. -/
inductive Tag where
  | H4Tag (value : String)
  | PTag (value : String)
  | TableTag (t : TableTag)
  | UlTag (u : UlTag)
deriving DecidableEq

/-- Outcome of a Rust computation that can either return Ok, return an
anyhow error, or panic.  The panicked constructor models a Rust panic
(here: out-of-bounds vector indexing), which is not a Result value. -/
inductive PRes (α : Type) where
  | ok (a : α)
  | err (msg : String)
  | panicked
deriving DecidableEq

/-- HashMap::insert with overwrite semantics on the association-list
model: an existing key keeps its position and gets the new value, a new
key is appended. -/
def rmapInsert : List (String × String) → String → String → List (String × String)
  | [], k, v => [(k, v)]
  | (k', v') :: rest, k, v =>
    if k' = k then (k, v) :: rest else (k', v') :: rmapInsert rest k v

/-- HashMap::get on the association-list model. -/
def rmapGet : List (String × String) → String → Option String
  | [], _ => none
  | (k', v') :: rest, k => if k' = k then some v' else rmapGet rest k

/-- The keys of a row mapping, in insertion order. -/
def rmapKeys (m : List (String × String)) : List String := m.map Prod.fst

/-- Inner loop of parse_table_thead over the children of one tr row:
collect the trimmed text of every th cell, left to right. -/
def theadRowCols : List HNode → List String
  | [] => []
  | c :: rest =>
    match nodeName c with
    | none => theadRowCols rest
    | some nm =>
      if nm = "th" then rustTrim (nodeText c) :: theadRowCols rest
      else theadRowCols rest

/-- Loop of parse_table_thead over the children of the thead node. -/
def parse_table_thead_go : List HNode → List String
  | [] => []
  | c :: rest =>
    match nodeName c with
    | none => parse_table_thead_go rest
    | some nm =>
      if nm = "tr" then theadRowCols (nodeChildren c) ++ parse_table_thead_go rest
      else parse_table_thead_go rest

/-- parse_table_thead of parser.rs.  The Rust signature returns Result
but the body has no failure path, so the model is a plain function. -/
def parse_table_thead (node : HNode) : List String :=
  parse_table_thead_go (nodeChildren node)

/-- Inner loop of parse_table_tbody over the children of one tr row.
Each td cell is assigned the header column at the running index
column_name[idx]; the Rust indexing panics when idx is out of bounds,
modelled by returning none. -/
def parse_table_tbody_row (column_name : List String) :
    Nat → List (String × String) → List HNode → Option (List (String × String))
  | _, line, [] => some line
  | idx, line, f :: rest =>
    match nodeName f with
    | none => parse_table_tbody_row column_name idx line rest
    | some nm =>
      if nm = "td" then
        match column_name[idx]? with
        | none => none
        | some col =>
          parse_table_tbody_row column_name (idx + 1)
            (rmapInsert line col (rustTrim (nodeText f))) rest
      else parse_table_tbody_row column_name idx line rest

/-- Loop of parse_table_tbody over the children of the tbody node. -/
def parse_table_tbody_go (column_name : List String) : List HNode → Option (List LineTag)
  | [] => some []
  | c :: rest =>
    match nodeName c with
    | none => parse_table_tbody_go column_name rest
    | some nm =>
      if nm = "tr" then
        match parse_table_tbody_row column_name 0 [] (nodeChildren c) with
        | none => none
        | some line =>
          match parse_table_tbody_go column_name rest with
          | none => none
          | some lines => some (⟨line⟩ :: lines)
      else parse_table_tbody_go column_name rest

/-- parse_table_tbody of parser.rs.  The Rust signature returns Result
but the body never constructs an Err; its only failure mode is the
panic on column_name[idx], modelled as none. -/
def parse_table_tbody (node : HNode) (column_name : List String) : Option (List LineTag) :=
  parse_table_tbody_go column_name (nodeChildren node)

/-- Loop of parse_tag_table over the children of the table node,
carrying the mutable column_names and lines of the source. -/
def parse_tag_table_go : List HNode → List String → List LineTag → PRes TableTag
  | [], _, lines => .ok ⟨lines⟩
  | c :: rest, column_names, lines =>
    match nodeName c with
    | none => parse_tag_table_go rest column_names lines
    | some nm =>
      if nm = "thead" then parse_tag_table_go rest (parse_table_thead c) lines
      else if nm = "tbody" then
        match parse_table_tbody c column_names with
        | none => .panicked
        | some ls => parse_tag_table_go rest column_names ls
      else parse_tag_table_go rest column_names lines

/-- parse_tag_table of parser.rs. -/
def parse_tag_table (node : HNode) : PRes TableTag :=
  parse_tag_table_go (nodeChildren node) [] []

/-- Loop of parse_tag_ul over the children of the ul node: insert the
trimmed text of every li child into the item set. -/
def ulItems : List HNode → Finset LiTag
  | [] => ∅
  | c :: rest =>
    match nodeName c with
    | none => ulItems rest
    | some nm =>
      if nm = "li" then insert ⟨rustTrim (nodeText c)⟩ (ulItems rest)
      else ulItems rest

/-- parse_tag_ul of parser.rs.  The Rust signature returns Result but
the body has no failure path. -/
def parse_tag_ul (node : HNode) : UlTag := ⟨ulItems (nodeChildren node)⟩

/-- Prepend one classified tag to the result of classifying the rest,
propagating errors and panics (the Rust loop pushes into a Vec and the
question-mark operator aborts the whole function). -/
def consOk (t : Tag) : PRes (List Tag) → PRes (List Tag)
  | .ok ts => .ok (t :: ts)
  | .err e => .err e
  | .panicked => .panicked

/-- Loop of get_list_of_main_tags over the direct children of the
content container, dispatching on the trimmed lowercase tag name
exactly as the source match does. -/
def get_list_of_main_tags_go : List HNode → PRes (List Tag)
  | [] => .ok []
  | node :: rest =>
    match nodeName node with
    | none => get_list_of_main_tags_go rest
    | some raw =>
      let node_name := rustTrim raw
      if node_name = "h4" then
        if (nodeText node).data.contains ' ' then get_list_of_main_tags_go rest
        else consOk (.H4Tag (nodeText node)) (get_list_of_main_tags_go rest)
      else if node_name = "p" then
        consOk (.PTag (nodeText node)) (get_list_of_main_tags_go rest)
      else if node_name = "table" then
        match nodeAttr node "class" with
        | none => .err "ERROR: The table tag does not have the class attribute"
        | some c =>
          if c ≠ "table" then get_list_of_main_tags_go rest
          else
            match parse_tag_table node with
            | .ok t => consOk (.TableTag t) (get_list_of_main_tags_go rest)
            | .err e => .err e
            | .panicked => .panicked
      else if node_name = "ul" then
        consOk (.UlTag (parse_tag_ul node)) (get_list_of_main_tags_go rest)
      else get_list_of_main_tags_go rest

/-- The predicate of Document.find(Attr("id", "dev_page_content")). -/
def devPageContentPred (n : HNode) : Bool :=
  nodeAttr n "id" == some "dev_page_content"

/-- Locate the content container: the first node in document order whose
id attribute is dev_page_content. -/
def findStartTag (document : List HNode) : Option HNode :=
  (preorderForest document).find? devPageContentPred

/-- get_list_of_main_tags of parser.rs: locate the content container or
fail, then classify its direct children in document order. -/
def get_list_of_main_tags (document : List HNode) : PRes (List Tag) :=
  match findStartTag document with
  | none => .err "ERROR: Couldn't find the start tag of the data"
  | some container => get_list_of_main_tags_go (nodeChildren container)

/-- The fixed primitive type mapping of parse_field_type. -/
def tgTypes : List (String × String) :=
  [("Integer", "i64"), ("True", "bool"), ("Boolean", "bool"), ("Float", "f64"),
   ("InputFile or String", "String"), ("Integer or String", "String")]

/-- HashMap::get on the fixed primitive mapping. -/
def lookupTg : List (String × String) → String → Option String
  | [], _ => none
  | (k, v) :: rest, s => if k = s then some v else lookupTg rest s

theorem startsWithL_length (p s : List Char) (h : startsWithL p s = true) :
    p.length ≤ s.length := by
  induction p generalizing s with
  | nil => simp
  | cons a ps ih =>
    cases s with
    | nil => simp [startsWithL] at h
    | cons c cs =>
      simp only [startsWithL, Bool.and_eq_true] at h
      simpa using ih cs h.2

theorem rustTrimL_length (l : List Char) : (rustTrimL l).length ≤ l.length := by
  unfold rustTrimL
  calc ((l.dropWhile isRustWs).reverse.dropWhile isRustWs).reverse.length
      = ((l.dropWhile isRustWs).reverse.dropWhile isRustWs).length := by simp
    _ ≤ (l.dropWhile isRustWs).reverse.length := (List.dropWhile_sublist _).length_le
    _ = (l.dropWhile isRustWs).length := by simp
    _ ≤ l.length := (List.dropWhile_sublist _).length_le

/-- parse_field_type of parser.rs: strip recursively the Array of
wrapping (the Rust split_at(8) on bytes is modelled as dropping 8
characters, equal on the ASCII strings involved), then look the whole
phrase up in the fixed primitive mapping, else return it unchanged. -/
def parse_field_type (t : String) : String :=
  if startsWithL "Array of".data (rustTrimL t.data) then
    "Vec<" ++ parse_field_type ⟨rustTrimL (t.data.drop 8)⟩ ++ ">"
  else
    match lookupTg tgTypes t with
    | some r => r
    | none => t
termination_by t.data.length
decreasing_by
  have h1 : ("Array of".data).length ≤ (rustTrimL t.data).length :=
    startsWithL_length _ _ (by assumption)
  have h2 : (rustTrimL t.data).length ≤ t.data.length := rustTrimL_length _
  have h8 : 8 ≤ t.data.length := by simpa using le_trans h1 h2
  have h3 : (rustTrimL (t.data.drop 8)).length ≤ (t.data.drop 8).length := rustTrimL_length _
  simp only [List.length_drop] at h3
  omega

/-- Loop of get_fields_from_table over the decoded rows, accumulating
the BTreeSet of fields. -/
def get_fields_from_table_go : List LineTag → Finset Field → Except String (Finset Field)
  | [], acc => .ok acc
  | line :: rest, acc =>
    match rmapGet line.value "Field" with
    | none => .error "ERROR: The field did not have a name found"
    | some name =>
      match rmapGet line.value "Type" with
      | none => .error "ERROR: The field type was not found"
      | some ty =>
        match rmapGet line.value "Description" with
        | none => .error "ERROR: No description found for the field"
        | some description =>
          get_fields_from_table_go rest
            (insert ⟨name, parse_field_type ty, rustStartsWith description "Optional",
                     description⟩ acc)

/-- get_fields_from_table of parser.rs. -/
def get_fields_from_table (table : TableTag) : Except String (Finset Field) :=
  get_fields_from_table_go table.lines ∅

/-- get_fields_from_ul of parser.rs: each list item becomes a field
whose name and type are the item text, not optional, empty description.
The Rust signature returns Result but the body has no failure path. -/
def get_fields_from_ul (ul : UlTag) : Finset Field :=
  ul.list_items.image (fun li => ⟨li.value, li.value, false, ""⟩)

/-- parse_type of parser.rs: reject being given both a table and a list,
then build the field set from whichever shape is present. -/
def parse_type (name desc : String) (table : Option TableTag) (ul : Option UlTag) :
    Except String TgType :=
  if table.isSome && ul.isSome then
    .error "ERROR: Type can only have one of 'table' or 'ul'"
  else
    match (match table with
           | some t => get_fields_from_table t
           | none => .ok ∅) with
    | .error e => .error e
    | .ok fields =>
      let fields := match ul with
        | some u => get_fields_from_ul u
        | none => fields
      .ok ⟨name, desc, fields⟩

/-- Loop of parse_types of parser.rs: the linear scan over the block
sequence carrying prev_tag, type_name, type_desc and the accumulated
result set.  chars().next() is charsNext and char::is_uppercase is
modelled on the ASCII range by Char.isUpper. -/
def parse_types_go : List Tag → Tag → String → String → Finset TgType →
    Except String (Finset TgType)
  | [], _, _, _, result => .ok result
  | .H4Tag v :: rest, prev_tag, type_name, type_desc, result =>
    match prev_tag with
    | .PTag _ =>
      (match charsNext type_name with
       | none => parse_types_go rest (.H4Tag v) v type_desc result
       | some ch =>
         if ch.isUpper then
           match parse_type type_name type_desc none none with
           | .error e => .error e
           | .ok ty => parse_types_go rest (.H4Tag v) v type_desc (insert ty result)
         else parse_types_go rest (.H4Tag v) v type_desc result)
    | _ => parse_types_go rest (.H4Tag v) v type_desc result
  | .PTag v :: rest, _, type_name, _, result =>
    parse_types_go rest (.PTag v) type_name v result
  | .TableTag t :: rest, _, type_name, type_desc, result =>
    (match charsNext type_name with
     | none => .error "ERROR: Empty type name"
     | some ch =>
       if ch.isUpper then
         match parse_type type_name type_desc (some t) none with
         | .error e => .error e
         | .ok ty => parse_types_go rest (.TableTag t) type_name type_desc (insert ty result)
       else parse_types_go rest (.TableTag t) type_name type_desc result)
  | .UlTag u :: rest, _, type_name, type_desc, result =>
    (match charsNext type_name with
     | none => parse_types_go rest (.UlTag u) type_name type_desc result
     | some ch =>
       if ch.isUpper then
         match parse_type type_name type_desc none (some u) with
         | .error e => .error e
         | .ok ty => parse_types_go rest (.UlTag u) type_name type_desc (insert ty result)
       else parse_types_go rest (.UlTag u) type_name type_desc result)

/-- parse_types of parser.rs, started from Tag::default() and empty
pending name, description and result. -/
def parse_types (tags : List Tag) : Except String (Finset TgType) :=
  parse_types_go tags (.H4Tag "") "" "" ∅

/-- parse_methods of parser.rs: the body is literally HashSet::new(). -/
def parse_methods (_tags : List Tag) : Finset Method := ∅

/-- parse_api of parser.rs: run both extraction passes over the same
block sequence (rayon::join in the source) and pair the results,
propagating a type-pass error. -/
def parse_api (tags : List Tag) : Except String (Finset TgType × Finset Method) :=
  match parse_types tags with
  | .error e => .error e
  | .ok types => .ok (types, parse_methods tags)

/-- Spec-side notion for claim C8: the rendered text contains some
whitespace character (the spec says any whitespace causes skipping). -/
def containsRustWhitespace (s : String) : Bool := s.data.any isRustWs

/-- Spec-side notion: the pending name is led by an uppercase letter. -/
def firstCharUpper (s : String) : Bool :=
  match charsNext s with
  | some c => c.isUpper
  | none => false

/-- Spec-side family for claim C9: the phrase Array of ... Array of
Integer with n levels of wrapping. -/
def arrayOfIntegerIter : Nat → String
  | 0 => "Integer"
  | n + 1 => "Array of " ++ arrayOfIntegerIter n

/-- Spec-side family for claim C9: the token wrapped in n sequence-of
layers. -/
def vecIter : Nat → String → String
  | 0, b => b
  | n + 1, b => "Vec<" ++ vecIter n b ++ ">"

/-- The number of td element children of a row, the data cells the
tbody decoder zips against the header columns. -/
def tdCount : List HNode → Nat
  | [] => 0
  | n :: rest => (if nodeName n = some "td" then 1 else 0) + tdCount rest

theorem parse_field_type_step (t : String)
    (h : startsWithL "Array of".data (rustTrimL t.data) = true) :
    parse_field_type t = "Vec<" ++ parse_field_type ⟨rustTrimL (t.data.drop 8)⟩ ++ ">" := by
  rw [parse_field_type]
  simp [h]

theorem parse_field_type_base (t : String)
    (h : startsWithL "Array of".data (rustTrimL t.data) = false) :
    parse_field_type t = match lookupTg tgTypes t with | some r => r | none => t := by
  rw [parse_field_type]
  simp [h]

theorem parse_field_type_integer : parse_field_type "Integer" = "i64" := by
  rw [parse_field_type_base _ (by decide)]
  decide

/-- C1: the spec requires a method-extraction pass structurally symmetric
to type extraction, keyed on lowercase-led pending names and producing
Parameter records from the qualifying table.  The code of parse_methods
is an unimplemented stub: it returns the empty method set on every block
sequence, in particular on a lowercase-led heading followed by a
description paragraph and a qualifying parameter table, so no Method
declaration is ever produced. -/
theorem c1_parse_methods_is_stub :
    parse_methods [Tag.H4Tag "getMe", Tag.PTag "A simple method.",
      Tag.TableTag ⟨[⟨[("Parameter", "chat_id"), ("Type", "Integer"),
        ("Required", "Yes"), ("Description", "Chat id")]⟩]⟩] = ∅
    ∧ ∀ tags : List Tag, parse_methods tags = ∅ :=
  ⟨rfl, fun _ => rfl⟩

/-- C3: table decoding panics via the unguarded indexing column_name[idx]
(modelled by the panic outcome) on an admitted table whose body row has
more data cells than the header has columns, and likewise when a body
row has a data cell while no header columns were decoded. -/
theorem c3_parse_table_tbody_panics :
    parse_tag_table (HNode.element "table" [("class", "table")]
      [HNode.element "thead" []
        [HNode.element "tr" [] [HNode.element "th" [] [HNode.text "Field"]]],
       HNode.element "tbody" [] [HNode.element "tr" []
         [HNode.element "td" [] [HNode.text "id"],
          HNode.element "td" [] [HNode.text "x"]]]])
      = .panicked
    ∧ parse_table_tbody (HNode.element "tbody" []
        [HNode.element "tr" [] [HNode.element "td" [] [HNode.text "id"]]]) [] = none :=
  ⟨rfl, rfl⟩

/-- C4 counterexample: the claim says every table child without the exact
table-style class marker is silently skipped, but a table child with no
class attribute at all makes the classifier fail with an error instead
of skipping it. -/
theorem c4_table_without_class_attr_errors :
    get_list_of_main_tags [HNode.element "div" [("id", "dev_page_content")]
      [HNode.element "table" [] []]]
      = .err "ERROR: The table tag does not have the class attribute" := rfl

/-- C4 amended: a table child whose class attribute is present but is not
exactly the value table is silently skipped by the classifier;
classification of the remaining children proceeds as if the table were
absent.  (A table with no class attribute at all is an error, per the
counterexample.) -/
theorem c4_table_wrong_class_skipped (attrs : List (String × String))
    (cs rest : List HNode) (c : String)
    (h1 : attrLookup attrs "class" = some c) (h2 : c ≠ "table") :
    get_list_of_main_tags_go (HNode.element "table" attrs cs :: rest) =
      get_list_of_main_tags_go rest := by
  have hname : rustTrim "table" = "table" := rfl
  simp only [get_list_of_main_tags_go, nodeName, nodeAttr, hname]
  simp [h1, h2]

/-- C4 witness: a concrete table child with class x is skipped. -/
theorem c4_witness :
    get_list_of_main_tags_go [HNode.element "table" [("class", "x")] [],
      HNode.element "p" [] [HNode.text "hi"]] =
      get_list_of_main_tags_go [HNode.element "p" [] [HNode.text "hi"]] :=
  c4_table_wrong_class_skipped [("class", "x")] []
    [HNode.element "p" [] [HNode.text "hi"]] "x" rfl (by decide)

/-- C7: on every document in which no node carries the attribute id with
value dev_page_content, parsing fails with the structure-not-found error
and no block sequence is returned. -/
theorem c7_missing_marker_errors (document : List HNode)
    (h : ∀ n ∈ preorderForest document, nodeAttr n "id" ≠ some "dev_page_content") :
    get_list_of_main_tags document = .err "ERROR: Couldn't find the start tag of the data" := by
  have hf : findStartTag document = none := by
    unfold findStartTag
    apply List.find?_eq_none.mpr
    intro n hn
    simpa [devPageContentPred] using h n hn
  simp [get_list_of_main_tags, hf]

/-- C7 witness: a concrete document without the content marker. -/
theorem c7_witness :
    get_list_of_main_tags [HNode.element "div" [] [HNode.text "x"]] =
      .err "ERROR: Couldn't find the start tag of the data" :=
  c7_missing_marker_errors _ (by decide)

/-- C8 counterexample: the claim says a heading is admitted if and only
if its rendered text contains no whitespace, but a heading whose text
contains a tab (a whitespace character that is not a space) is admitted
by the classifier: the code only checks for the space character. -/
theorem c8_tab_heading_admitted :
    get_list_of_main_tags [HNode.element "div" [("id", "dev_page_content")]
      [HNode.element "h4" [] [HNode.text "a\tb"]]] = .ok [Tag.H4Tag "a\tb"]
    ∧ containsRustWhitespace "a\tb" = true :=
  ⟨rfl, rfl⟩

/-- C8 amended: a heading child is admitted as a Heading block if and
only if its rendered text contains no space character; only the space
character, not other whitespace, causes the heading to be skipped. -/
theorem c8_h4_checks_space_only (attrs : List (String × String)) (cs rest : List HNode) :
    get_list_of_main_tags_go (HNode.element "h4" attrs cs :: rest) =
      if (nodeText (HNode.element "h4" attrs cs)).data.contains ' ' then
        get_list_of_main_tags_go rest
      else consOk (Tag.H4Tag (nodeText (HNode.element "h4" attrs cs)))
        (get_list_of_main_tags_go rest) := by
  have hname : rustTrim "h4" = "h4" := rfl
  simp only [get_list_of_main_tags_go, nodeName, hname]
  simp

theorem parse_type_no_shape (name desc : String) :
    parse_type name desc none none = .ok ⟨name, desc, ∅⟩ := rfl

/-- C5: a field-less Type is finalized exactly when the next heading is
scanned: for every uppercase-led heading text A, description d and
second heading text B, the block sequence Heading A, Paragraph d,
Heading B yields exactly the one field-less Type (A, d); and the same
declaration at the very end of the block sequence (no second heading)
is not emitted, because the scan has no end-of-sequence flush. -/
theorem c5_fieldless_type_on_next_heading (A B d : String)
    (h : firstCharUpper A = true) :
    parse_types [Tag.H4Tag A, Tag.PTag d, Tag.H4Tag B] = .ok {(⟨A, d, ∅⟩ : TgType)}
    ∧ parse_types [Tag.H4Tag A, Tag.PTag d] = .ok ∅ := by
  obtain ⟨ch, hch, hup⟩ : ∃ ch, charsNext A = some ch ∧ ch.isUpper = true := by
    unfold firstCharUpper at h
    rcases hc : charsNext A with _ | ch
    · rw [hc] at h; cases h
    · rw [hc] at h; exact ⟨ch, rfl, h⟩
  constructor
  · simp only [parse_types, parse_types_go, hch, hup, if_true, parse_type_no_shape]
    simp
  · simp only [parse_types, parse_types_go]

/-- C5 witness: concrete headings User and Chat with a description in
between produce exactly the one field-less Type User, and the trailing
pair without a second heading produces nothing. -/
theorem c5_witness :
    parse_types [Tag.H4Tag "User", Tag.PTag "A user.", Tag.H4Tag "Chat"] =
      .ok {(⟨"User", "A user.", ∅⟩ : TgType)}
    ∧ parse_types [Tag.H4Tag "User", Tag.PTag "A user."] = .ok ∅ :=
  c5_fieldless_type_on_next_heading "User" "Chat" "A user." (by decide)

/-- Concrete qualifying table for the C2 scenario. -/
def c2_table : TableTag :=
  ⟨[⟨[("Field", "id"), ("Type", "Integer"), ("Description", "The id")]⟩]⟩

/-- Concrete qualifying list for the C2 scenario. -/
def c2_ul : UlTag := ⟨{⟨"Variant"⟩}⟩

/-- C2 scenario: a declaration heading followed by both a qualifying
table and a qualifying list before the next heading. -/
def c2_tags : List Tag :=
  [Tag.H4Tag "User", Tag.PTag "A user.", Tag.TableTag c2_table, Tag.UlTag c2_ul]

/-- The Type finalized from the table block of the C2 scenario. -/
def c2_type_from_table : TgType :=
  ⟨"User", "A user.", {⟨"id", "i64", false, "The id"⟩}⟩

/-- The Type finalized from the list block of the C2 scenario. -/
def c2_type_from_ul : TgType :=
  ⟨"User", "A user.", {⟨"Variant", "Variant", false, ""⟩}⟩

theorem c2_table_fields :
    get_fields_from_table c2_table = .ok {(⟨"id", "i64", false, "The id"⟩ : TgBotApi.Field)} := by
  have h : get_fields_from_table c2_table =
      .ok (insert (⟨"id", parse_field_type "Integer", false, "The id"⟩ : TgBotApi.Field) ∅) := rfl
  rw [parse_field_type_integer] at h
  simpa using h

theorem c2_parse_type_table :
    parse_type "User" "A user." (some c2_table) none = .ok c2_type_from_table := by
  simp [parse_type, c2_table_fields, c2_type_from_table]

theorem c2_parse_type_ul :
    parse_type "User" "A user." none (some c2_ul) = .ok c2_type_from_ul := by
  simp [parse_type, get_fields_from_ul, c2_ul, c2_type_from_ul]

/-- C2 counterexample: on a block sequence in which a declaration heading
is followed by both a qualifying table and a qualifying list before the
next heading, parsing does not fail at all: the caller receives an Ok
schema (with a Type finalized from each shape), not an ambiguous-shape
error. -/
theorem c2_table_then_ul_is_ok :
    parse_api c2_tags =
      .ok ({c2_type_from_table, c2_type_from_ul}, (∅ : Finset Method)) := by
  have hU : charsNext "User" = some 'U' := rfl
  have hUp : ('U'.isUpper) = true := rfl
  simp only [parse_api, parse_types, c2_tags, parse_types_go, hU, hUp, if_true,
    c2_parse_type_table, c2_parse_type_ul, parse_methods]
  simp [Finset.pair_comm]

/-- C2 amended: the guard exists only inside parse_type, which rejects
being handed both a table and a list, but the block-sequence scan never
invokes it that way: a heading followed by both a qualifying table and
a qualifying list yields two separate Type finalizations, one per
shape, and no error is surfaced. -/
theorem c2_guard_unreachable_two_types_emitted :
    (∀ (name desc : String) (t : TableTag) (u : UlTag),
      parse_type name desc (some t) (some u) =
        .error "ERROR: Type can only have one of 'table' or 'ul'")
    ∧ parse_types c2_tags = .ok {c2_type_from_table, c2_type_from_ul} := by
  constructor
  · intro name desc t u; rfl
  · have hU : charsNext "User" = some 'U' := rfl
    have hUp : ('U'.isUpper) = true := rfl
    simp only [parse_types, c2_tags, parse_types_go, hU, hUp, if_true,
      c2_parse_type_table, c2_parse_type_ul]
    simp [Finset.pair_comm]

theorem rmapKeys_insert (m : List (String × String)) (k v : String) :
    rmapKeys (rmapInsert m k v) =
      if k ∈ rmapKeys m then rmapKeys m else rmapKeys m ++ [k] := by
  induction m with
  | nil => simp [rmapInsert, rmapKeys]
  | cons p rest ih =>
    obtain ⟨k', v'⟩ := p
    by_cases hk : k' = k
    · subst hk
      simp [rmapInsert, rmapKeys]
    · have hne : ¬(k = k') := fun hcontra => hk hcontra.symm
      simp only [rmapInsert, if_neg hk]
      simp only [rmapKeys, List.map_cons] at ih ⊢
      rw [ih]
      by_cases hmem : k ∈ List.map Prod.fst rest
      · simp [hmem, hne]
      · simp [hmem, hne]

theorem parse_table_tbody_row_keys (cols : List String) (cells : List HNode) :
    ∀ (idx : Nat) (line line' : List (String × String)),
      parse_table_tbody_row cols idx line cells = some line' →
      ∃ ks, ks.Sublist (cols.drop idx) ∧ rmapKeys line' = rmapKeys line ++ ks := by
  induction cells with
  | nil =>
    intro idx line line' h
    simp only [parse_table_tbody_row, Option.some.injEq] at h
    exact ⟨[], by simp, by simp [h]⟩
  | cons f rest ih =>
    intro idx line line' h
    rcases hf : nodeName f with _ | nm
    · simp only [parse_table_tbody_row, hf] at h
      exact ih idx line line' h
    · simp only [parse_table_tbody_row, hf] at h
      by_cases htd : nm = "td"
      · rw [if_pos htd] at h
        rcases hcol : cols[idx]? with _ | col
        · rw [hcol] at h
          exact absurd h (by simp)
        · rw [hcol] at h
          obtain ⟨ks', hks', hkeys'⟩ := ih (idx + 1) _ line' h
          have hlt : idx < cols.length := (List.getElem?_eq_some.mp hcol).1
          have hdrop : cols.drop idx = col :: cols.drop (idx + 1) := by
            rw [List.drop_eq_getElem_cons hlt]
            have := (List.getElem?_eq_some.mp hcol).2
            rw [this]
          rw [rmapKeys_insert] at hkeys'
          by_cases hmem : col ∈ rmapKeys line
          · rw [if_pos hmem] at hkeys'
            exact ⟨ks', by rw [hdrop]; exact List.Sublist.cons col hks', hkeys'⟩
          · rw [if_neg hmem] at hkeys'
            refine ⟨col :: ks', by rw [hdrop]; exact List.Sublist.cons₂ col hks', ?_⟩
            rw [hkeys']
            simp
      · rw [if_neg htd] at h
        exact ih idx line line' h

theorem parse_table_tbody_go_keys (cols : List String) (children : List HNode) :
    ∀ lines, parse_table_tbody_go cols children = some lines →
      ∀ l ∈ lines, (rmapKeys l.value).Sublist cols := by
  induction children with
  | nil =>
    intro lines h
    simp only [parse_table_tbody_go, Option.some.injEq] at h
    simp [← h]
  | cons c rest ih =>
    intro lines h
    rcases hc : nodeName c with _ | nm
    · simp only [parse_table_tbody_go, hc] at h
      exact ih lines h
    · simp only [parse_table_tbody_go, hc] at h
      by_cases htr : nm = "tr"
      · rw [if_pos htr] at h
        rcases hrow : parse_table_tbody_row cols 0 [] (nodeChildren c) with _ | line
        · rw [hrow] at h
          exact absurd h (by simp)
        · rw [hrow] at h
          rcases hrest : parse_table_tbody_go cols rest with _ | ls
          · rw [hrest] at h
            exact absurd h (by simp)
          · rw [hrest] at h
            simp only [Option.some.injEq] at h
            subst h
            intro l hl
            rcases List.mem_cons.mp hl with hl | hl
            · subst hl
              obtain ⟨ks, hks, hkeys⟩ :=
                parse_table_tbody_row_keys cols (nodeChildren c) 0 [] line hrow
              have hline : rmapKeys line = ks := by simpa [rmapKeys] using hkeys
              show (rmapKeys line).Sublist cols
              rw [hline]
              simpa using hks
            · exact ih ls hrest l hl
      · rw [if_neg htr] at h
        exact ih lines h

theorem parse_table_tbody_row_total (cols : List String) (cells : List HNode) :
    ∀ (idx : Nat) (line : List (String × String)),
      idx + tdCount cells ≤ cols.length →
      ∃ line', parse_table_tbody_row cols idx line cells = some line' := by
  induction cells with
  | nil => exact fun idx line _ => ⟨line, rfl⟩
  | cons f rest ih =>
    intro idx line hle
    rcases hf : nodeName f with _ | nm
    · have hcount : tdCount (f :: rest) = tdCount rest := by simp [tdCount, hf]
      rw [hcount] at hle
      obtain ⟨line', h⟩ := ih idx line hle
      exact ⟨line', by simp only [parse_table_tbody_row, hf]; exact h⟩
    · by_cases htd : nm = "td"
      · subst htd
        have hcount : tdCount (f :: rest) = 1 + tdCount rest := by simp [tdCount, hf]
        rw [hcount] at hle
        have hidx : idx < cols.length := by omega
        have hcol : cols[idx]? = some cols[idx] := List.getElem?_eq_getElem hidx
        obtain ⟨line', h⟩ :=
          ih (idx + 1) (rmapInsert line cols[idx] (rustTrim (nodeText f))) (by omega)
        refine ⟨line', ?_⟩
        simp only [parse_table_tbody_row, hf]
        simp [hcol]
        exact h
      · have hcount : tdCount (f :: rest) = tdCount rest := by simp [tdCount, hf, htd]
        rw [hcount] at hle
        obtain ⟨line', h⟩ := ih idx line hle
        refine ⟨line', ?_⟩
        simp only [parse_table_tbody_row, hf]
        rw [if_neg htd]
        exact h

/-- C6: for every tbody decoded against a header column list, the keys
of every decoded row are a sublist (a subset, in order) of the header
columns and the number of entries in the row mapping is at most the
header column count; and every row whose data-cell count is at most the
header column count decodes successfully (ragged rows are partially
filled, not rejected). -/
theorem c6_decoded_rows_respect_header :
    (∀ (node : HNode) (cols : List String) (lines : List LineTag),
        parse_table_tbody node cols = some lines →
        ∀ l ∈ lines, (rmapKeys l.value).Sublist cols ∧ l.value.length ≤ cols.length)
    ∧ (∀ (cols : List String) (cells : List HNode),
        tdCount cells ≤ cols.length →
        ∃ line, parse_table_tbody_row cols 0 [] cells = some line) := by
  constructor
  · intro node cols lines h l hl
    have hsub := parse_table_tbody_go_keys cols (nodeChildren node) lines h l hl
    refine ⟨hsub, ?_⟩
    have hlen := hsub.length_le
    simpa [rmapKeys] using hlen
  · intro cols cells h
    exact parse_table_tbody_row_total cols cells 0 [] (by simpa using h)

/-- C6 witness: a concrete tbody with a two-cell row decoded against a
three-column header. -/
theorem c6_witness :
    (∀ l ∈ [LineTag.mk [("Field", "id"), ("Type", "7")]],
        (rmapKeys l.value).Sublist ["Field", "Type", "Description"]
        ∧ l.value.length ≤ (["Field", "Type", "Description"] : List String).length)
    ∧ ∃ line, parse_table_tbody_row ["Field", "Type", "Description"] 0 []
        [HNode.element "td" [] [HNode.text "id"],
         HNode.element "td" [] [HNode.text " 7 "]] = some line :=
  ⟨c6_decoded_rows_respect_header.1
      (HNode.element "tbody" [] [HNode.element "tr" []
        [HNode.element "td" [] [HNode.text "id"],
         HNode.element "td" [] [HNode.text " 7 "]]])
      ["Field", "Type", "Description"] _ rfl,
   c6_decoded_rows_respect_header.2 ["Field", "Type", "Description"] _ (by decide)⟩

theorem str_data_append (a b : String) : (a ++ b).data = a.data ++ b.data := rfl

theorem rustTrimL_id_of_ends (l : List Char)
    (h1 : ∀ c, l.head? = some c → isRustWs c = false)
    (h2 : ∀ c, l.getLast? = some c → isRustWs c = false) :
    rustTrimL l = l := by
  rcases l with _ | ⟨a, t⟩
  · rfl
  · have ha : isRustWs a = false := h1 a rfl
    unfold rustTrimL
    rw [List.dropWhile_cons, ha]
    simp only [Bool.false_eq_true, if_false]
    rcases hrev : (a :: t).reverse with _ | ⟨b, bt⟩
    · exact absurd hrev (by simp)
    · have hb : (a :: t).getLast? = some b := by
        rw [← List.head?_reverse, hrev]
        rfl
      have hbws : isRustWs b = false := h2 b hb
      rw [List.dropWhile_cons, hbws]
      simp only [Bool.false_eq_true, if_false]
      rw [← hrev, List.reverse_reverse]

theorem startsWithL_self_append (p x : List Char) :
    startsWithL p (p ++ x) = true := by
  induction p with
  | nil => rfl
  | cons a ps ih => simp [startsWithL, ih]

theorem arrayOfIntegerIter_head (n : Nat) :
    ∃ c, (arrayOfIntegerIter n).data.head? = some c ∧ isRustWs c = false := by
  cases n with
  | zero => exact ⟨'I', rfl, rfl⟩
  | succ n => exact ⟨'A', rfl, rfl⟩

theorem arrayOfIntegerIter_last (n : Nat) :
    (arrayOfIntegerIter n).data.getLast? = some 'r' := by
  induction n with
  | zero => rfl
  | succ n ih =>
    show (("Array of " ++ arrayOfIntegerIter n)).data.getLast? = some 'r'
    rw [str_data_append]
    have hne : (arrayOfIntegerIter n).data ≠ [] := by
      intro hnil
      rw [hnil] at ih
      cases ih
    rw [List.getLast?_append_of_ne_nil _ hne]
    exact ih

theorem rustTrimL_iter (n : Nat) :
    rustTrimL (arrayOfIntegerIter n).data = (arrayOfIntegerIter n).data := by
  apply rustTrimL_id_of_ends
  · intro c hc
    obtain ⟨c0, hc0, hws⟩ := arrayOfIntegerIter_head n
    rw [hc0] at hc
    cases hc
    exact hws
  · intro c hc
    rw [arrayOfIntegerIter_last n] at hc
    cases hc
    rfl

theorem arrayOf_cond (n : Nat) :
    startsWithL "Array of".data (rustTrimL (arrayOfIntegerIter (n + 1)).data) = true := by
  rw [rustTrimL_iter]
  show startsWithL "Array of".data
    ("Array of ".data ++ (arrayOfIntegerIter n).data) = true
  have hsplit : ("Array of ".data : List Char) = "Array of".data ++ [' '] := rfl
  rw [hsplit, List.append_assoc]
  exact startsWithL_self_append _ _

theorem iter_drop8 (n : Nat) :
    ((arrayOfIntegerIter (n + 1)).data.drop 8) = ' ' :: (arrayOfIntegerIter n).data := by
  show (("Array of ".data ++ (arrayOfIntegerIter n).data).drop 8) = _
  rfl

theorem pft_iter_step (n : Nat) :
    parse_field_type (arrayOfIntegerIter (n + 1)) =
      "Vec<" ++ parse_field_type (arrayOfIntegerIter n) ++ ">" := by
  rw [parse_field_type_step _ (arrayOf_cond n)]
  have h1 : rustTrimL (' ' :: (arrayOfIntegerIter n).data) =
      rustTrimL (arrayOfIntegerIter n).data := by
    unfold rustTrimL
    rw [List.dropWhile_cons]
    norm_num [isRustWs]
  have harg : (⟨rustTrimL ((arrayOfIntegerIter (n + 1)).data.drop 8)⟩ : String) =
      arrayOfIntegerIter n := by
    rw [iter_drop8, h1, rustTrimL_iter]
  rw [harg]

/-- C9: the type-name normalizer maps Array of Array of Integer to the
doubly nested sequence-of token over the 64-bit integer token, and for
every finite nesting depth n the phrase with n Array of wrappers around
Integer normalizes to n sequence-of layers around that token (the
recursion consumes exactly one wrapper per step, so its depth is the
nesting depth and it terminates for every input, the function being
total by the decreasing character count). -/
theorem c9_normalize_array_of_nesting :
    parse_field_type "Array of Array of Integer" = "Vec<Vec<i64>>"
    ∧ ∀ n : Nat, parse_field_type (arrayOfIntegerIter n) = vecIter n "i64" := by
  have hgen : ∀ n : Nat, parse_field_type (arrayOfIntegerIter n) = vecIter n "i64" := by
    intro n
    induction n with
    | zero => exact parse_field_type_integer
    | succ n ih =>
      rw [pft_iter_step, ih]
      rfl
  refine ⟨?_, hgen⟩
  have h2 : "Array of Array of Integer" = arrayOfIntegerIter 2 := rfl
  rw [h2, hgen 2]
  rfl

/-- C10: the type-name normalizer is idempotent on every token in the
range of the fixed primitive mapping table: normalizing an already
canonical token returns it unchanged. -/
theorem c10_normalize_idempotent_on_primitives (t : String)
    (h : t ∈ tgTypes.map Prod.snd) : parse_field_type t = t := by
  fin_cases h <;> rw [parse_field_type_base _ (by decide)] <;> decide

/-- C10 witness: the 64-bit integer token is in the range of the mapping
and normalizes to itself. -/
theorem c10_witness :
    "i64" ∈ tgTypes.map Prod.snd ∧ parse_field_type "i64" = "i64" :=
  ⟨by decide, c10_normalize_idempotent_on_primitives "i64" (by decide)⟩

end TgBotApi
